import Mathlib

/-!
Verification of the Feishu approval attachment-forwarding service.

We shallowly embed the Python source: JSON-like runtime values become the
inductive `PyVal`; each Python function of interest becomes a Lean function
over `PyVal`; code that can raise becomes `Except String`; the external
`json.loads` is a parameter `parse : String → Option PyVal` (`none` models
`json.JSONDecodeError`).
-/

/-- A parsed JSON-like Python runtime value. -/
inductive PyVal where
  | vnone : PyVal
  | vbool : Bool → PyVal
  | vnum  : Int → PyVal
  | vstr  : String → PyVal
  | vlist : List PyVal → PyVal
  | vdict : List (String × PyVal) → PyVal

/-- `dict.get(key)` on an association list: first binding wins, `none` if absent. -/
def dget? : List (String × PyVal) → String → Option PyVal
  | [], _ => none
  | (k, v) :: rest, key => if k = key then some v else dget? rest key

/-- `dict.get(key, default)`. -/
def dgetD (kvs : List (String × PyVal)) (key : String) (d : PyVal) : PyVal :=
  (dget? kvs key).getD d

/-- Python truthiness of a `PyVal`. -/
def PyVal.truthy : PyVal → Bool
  | .vnone => false
  | .vbool b => b
  | .vnum n => decide (n ≠ 0)
  | .vstr s => decide (s ≠ "")
  | .vlist xs => !xs.isEmpty
  | .vdict kvs => !kvs.isEmpty

/-- Python `a or b`: `a` when truthy, else `b`. -/
def pyOr (a b : PyVal) : PyVal := if a.truthy then a else b

/-- Is the value the string `s`?  (Python `v == s` for a string literal `s`.) -/
def isStrEq (v : PyVal) (s : String) : Bool :=
  match v with
  | .vstr t => decide (t = s)
  | _ => false

/-- Character-list prefix test, recursing on the pattern first. -/
def listPrefix : List Char → List Char → Bool
  | [], _ => true
  | a :: as, l =>
    match l with
    | [] => false
    | b :: bs => decide (a = b) && listPrefix as bs

/-- Python `s.startswith(pre)` (character-wise prefix). -/
def strStartsWith (s pre : String) : Bool := listPrefix pre.data s.data

/-- Size of a looked-up value is below the size of the association list. -/
theorem dget?_sizeOf {kvs : List (String × PyVal)} {k : String} {v : PyVal}
    (h : dget? kvs k = some v) : sizeOf v < sizeOf kvs := by
  induction kvs with
  | nil => simp [dget?] at h
  | cons p rest ih =>
    obtain ⟨k', v'⟩ := p
    simp only [dget?] at h
    split at h
    · cases h
      simp only [List.cons.sizeOf_spec, Prod.mk.sizeOf_spec]
      omega
    · have := ih h
      simp only [List.cons.sizeOf_spec]
      omega

theorem sizeOf_pyList_pos (l : List PyVal) : 0 < sizeOf l := by
  cases l <;> simp_arith

theorem sizeOf_pyKvs_pos (l : List (String × PyVal)) : 0 < sizeOf l := by
  cases l <;> simp_arith

/-- Looked-up-or-default `value` of a `fieldList` control is smaller than the control. -/
theorem dgetD_vlist_sizeOf {kvs : List (String × PyVal)} {key : String} {rows : List PyVal}
    (h : dgetD kvs key (.vlist []) = .vlist rows) :
    sizeOf rows < sizeOf (PyVal.vdict kvs) := by
  unfold dgetD at h
  cases hg : dget? kvs key with
  | none =>
    rw [hg] at h
    simp only [Option.getD] at h
    cases h
    have := sizeOf_pyKvs_pos kvs
    simp only [PyVal.vdict.sizeOf_spec]
    simp
    omega
  | some v =>
    rw [hg] at h
    simp only [Option.getD] at h
    subst h
    have := dget?_sizeOf hg
    simp only [PyVal.vdict.sizeOf_spec, PyVal.vlist.sizeOf_spec] at *
    omega

/-!
## Attachment extraction (`src/services/attachment.py`)
-/

/-- A downloaded-content placeholder: abstract byte-blob identity. -/
abbrev Content := Nat

/-- The `AttachmentInfo` dataclass.  Python does not enforce the declared
`str` types, so the fields hold arbitrary runtime values. -/
structure AttachmentInfo where
  file_token : PyVal
  name : PyVal
  mime_type : PyVal := .vstr ""
  content : Option Content := none
  download_url : PyVal := .vstr ""

/-- Filename candidates from a control's `ext` field. -/
def extFilenames (extv : PyVal) : List PyVal :=
  match extv with
  | .vstr s =>
    if s ≠ "" then (s.splitOn ",").map (fun n => .vstr n.trim) else []
  | .vdict ekvs =>
    let n := pyOr (dgetD ekvs "name" .vnone) (dgetD ekvs "file_name" .vnone)
    if n.truthy then [n] else []
  | .vlist xs => xs
  | _ => []

/-- The generated fallback filename for the zero-based position `i`. -/
def fallbackName (i : Nat) : String := "attachment_" ++ toString (i + 1)

/-- Resolve one entry of the (normalized) file list of an attachment control. -/
def resolveFile (extNames : List PyVal) (i : Nat) (file_info : PyVal) : List AttachmentInfo :=
  match file_info with
  | .vstr s =>
    if strStartsWith s "http" then
      [{ file_token := .vstr "", name := extNames.getD i (.vstr (fallbackName i)),
         mime_type := .vstr "", content := none, download_url := .vstr s }]
    else []
  | .vdict fkvs =>
    [{ file_token := pyOr (pyOr (dgetD fkvs "file_token" .vnone) (dgetD fkvs "token" .vnone)) (.vstr ""),
       name := pyOr (dgetD fkvs "name" .vnone) (dgetD fkvs "file_name" (.vstr (fallbackName i))),
       mime_type := dgetD fkvs "mime_type" (.vstr ""),
       content := none,
       download_url := pyOr (pyOr (dgetD fkvs "url" .vnone) (dgetD fkvs "download_url" .vnone)) (.vstr "") }]
  | _ => []

/-- The `for i, file_info in enumerate(files)` loop. -/
def resolveFiles (extNames : List PyVal) (i : Nat) : List PyVal → List AttachmentInfo
  | [] => []
  | f :: rest => resolveFile extNames i f ++ resolveFiles extNames (i + 1) rest

/-- Process the (already decoded) `value` of an attachment control:
derive filename candidates from `ext`, wrap a lone entry, resolve each entry. -/
def resolveValue (kvs : List (String × PyVal)) (value : PyVal) : List AttachmentInfo :=
  let extNames := extFilenames (dgetD kvs "ext" .vnone)
  let files := match value with | .vlist xs => xs | v => [v]
  resolveFiles extNames 0 files

/-- Resolve one attachment-typed control (`type` is `attachment`/`attachmentV2`):
empty value yields nothing; a text value is parsed, falling back to a single
bare-URL descriptor named `"attachment"` when the text is unparseable. -/
def resolveAttachmentCtrl (parse : String → Option PyVal) (kvs : List (String × PyVal)) :
    List AttachmentInfo :=
  let value0 := dgetD kvs "value" .vnone
  if value0.truthy = false then []
  else
    match value0 with
    | .vstr s =>
      match parse s with
      | none =>
        if strStartsWith s "http" then
          [{ file_token := .vstr "", name := .vstr "attachment",
             mime_type := .vstr "", content := none, download_url := .vstr s }]
        else []
      | some v => resolveValue kvs v
    | v => resolveValue kvs v

mutual

/-- `_extract_attachments_recursive` over a list of controls. -/
def extractCtrls (parse : String → Option PyVal) : List PyVal → List AttachmentInfo
  | [] => []
  | c :: rest => extractCtrl parse c ++ extractCtrls parse rest
termination_by cs => sizeOf cs
decreasing_by
  all_goals simp_wf <;> omega

/-- One control's contribution: recurse through `fieldList` rows, resolve
attachment controls, skip everything else (including non-dict items). -/
def extractCtrl (parse : String → Option PyVal) (c : PyVal) : List AttachmentInfo :=
  match c with
  | .vdict kvs =>
    if isStrEq (dgetD kvs "type" (.vstr "")) "fieldList" then
      match hv : dgetD kvs "value" (.vlist []) with
      | .vlist rows => extractRows parse rows
      | _ => []
    else if isStrEq (dgetD kvs "type" (.vstr "")) "attachment"
         || isStrEq (dgetD kvs "type" (.vstr "")) "attachmentV2" then
      resolveAttachmentCtrl parse kvs
    else []
  | _ => []
termination_by sizeOf c
decreasing_by
  simp_wf
  rename_i hv
  have := dgetD_vlist_sizeOf hv
  simp only [PyVal.vdict.sizeOf_spec] at this ⊢
  omega

/-- The rows of a `fieldList` value: recurse into each row that is a list. -/
def extractRows (parse : String → Option PyVal) : List PyVal → List AttachmentInfo
  | [] => []
  | .vlist cs :: rest => extractCtrls parse cs ++ extractRows parse rest
  | _ :: rest => extractRows parse rest
termination_by rows => sizeOf rows
decreasing_by
  all_goals simp_wf <;> omega

end

/-- `extract_attachments_from_form` lifts the recursive walk to any parsed
document, reproducing Python iteration: a dict iterates its keys, a string its
characters, and a non-iterable raises. -/
def pyIter : PyVal → Except String (List PyVal)
  | .vlist xs => .ok xs
  | .vdict kvs => .ok (kvs.map (fun p => .vstr p.1))
  | .vstr s => .ok (s.data.map (fun c => .vstr (String.singleton c)))
  | _ => .error "TypeError"

/-- `extract_attachments_from_form`: unparseable text yields `[]` without
raising; otherwise the recursive walk runs over the parsed document. -/
def extract_attachments_from_form (parse : String → Option PyVal) (form_json : String) :
    Except String (List AttachmentInfo) :=
  match parse form_json with
  | none => .ok []
  | some form_data =>
    match pyIter form_data with
    | .error e => .error e
    | .ok controls => .ok (extractCtrls parse controls)

/-- The contribution of a single non-`fieldList` control (the "leaf" step of
the walk): attachment-typed controls are resolved, everything else is skipped. -/
def resolveLeaf (parse : String → Option PyVal) (c : PyVal) : List AttachmentInfo :=
  match c with
  | .vdict kvs =>
    if isStrEq (dgetD kvs "type" (.vstr "")) "fieldList" then []
    else if isStrEq (dgetD kvs "type" (.vstr "")) "attachment"
         || isStrEq (dgetD kvs "type" (.vstr "")) "attachmentV2" then
      resolveAttachmentCtrl parse kvs
    else []
  | _ => []

mutual

/-- Document-order flattening of a control sequence: a `fieldList` control is
replaced by the flattening of its rows' controls; all other items stay. -/
def flattenCtrls : List PyVal → List PyVal
  | [] => []
  | c :: rest => flattenCtrl c ++ flattenCtrls rest
termination_by cs => sizeOf cs
decreasing_by
  all_goals simp_wf <;> omega

/-- Flattening of a single control. -/
def flattenCtrl (c : PyVal) : List PyVal :=
  match c with
  | .vdict kvs =>
    if isStrEq (dgetD kvs "type" (.vstr "")) "fieldList" then
      match hv : dgetD kvs "value" (.vlist []) with
      | .vlist rows => flattenRows rows
      | _ => []
    else [.vdict kvs]
  | v => [v]
termination_by sizeOf c
decreasing_by
  simp_wf
  rename_i hv
  have := dgetD_vlist_sizeOf hv
  simp only [PyVal.vdict.sizeOf_spec] at this ⊢
  omega

/-- Flattening of the rows of a `fieldList` value. -/
def flattenRows : List PyVal → List PyVal
  | [] => []
  | .vlist cs :: rest => flattenCtrls cs ++ flattenRows rest
  | _ :: rest => flattenRows rest
termination_by rows => sizeOf rows
decreasing_by
  all_goals simp_wf <;> omega

end

/-- Is a control a dict whose declared type is one of the attachment types? -/
def isAttachTyped (c : PyVal) : Bool :=
  match c with
  | .vdict kvs =>
    isStrEq (dgetD kvs "type" (.vstr "")) "attachment"
      || isStrEq (dgetD kvs "type" (.vstr "")) "attachmentV2"
  | _ => false

/-!
## Python string conversion (used by f-strings in `approval.py`)
-/

/-- Python `repr` of a parsed JSON value (string escaping elided: the values
the aggregator formats are plain strings in every scenario of the spec). -/
def pyRepr : PyVal → String
  | .vnone => "None"
  | .vbool true => "True"
  | .vbool false => "False"
  | .vnum n => toString n
  | .vstr s => "\x27" ++ s ++ "\x27"
  | .vlist xs =>
    "[" ++ String.intercalate ", " (xs.attach.map (fun ⟨x, hx⟩ => pyRepr x)) ++ "]"
  | .vdict kvs =>
    "\x7b" ++
      String.intercalate ", "
        (kvs.attach.map (fun ⟨⟨k, v⟩, hp⟩ => "\x27" ++ k ++ "\x27: " ++ pyRepr v)) ++
      "\x7d"
termination_by v => sizeOf v
decreasing_by
  · simp_wf
    have := List.sizeOf_lt_of_mem hx
    omega
  · simp_wf
    have := List.sizeOf_lt_of_mem hp
    simp only [Prod.mk.sizeOf_spec] at this
    omega

/-- Python `str()` as used inside f-strings. -/
def pyStr : PyVal → String
  | .vstr s => s
  | v => pyRepr v

/-!
## Field aggregation (`_process_approval`, `src/handlers/approval.py` 110-136)
-/

/-- Variant-A amount string: `f"{amount_value} {currency}"` with the currency
read from a dict-shaped `ext` (fixed fallback `"SEK"`). -/
def fmtA (kvs : List (String × PyVal)) : String :=
  let amount_value := dgetD kvs "value" (.vstr "")
  let extv := dgetD kvs "ext" (.vdict [])
  let currency : PyVal :=
    match extv with
    | .vdict ekvs => dgetD ekvs "currency" (.vstr "SEK")
    | _ => .vstr "SEK"
  pyStr amount_value ++ " " ++ pyStr currency

/-- `[f"{s.get('value', '')} {s.get('currency', '')}" for s in sums]` for a
list `sums`; a non-dict element raises. -/
def partsOfSumList : List PyVal → Except String (List String)
  | [] => .ok []
  | s :: rest =>
    match s with
    | .vdict skvs =>
      match partsOfSumList rest with
      | .error e => .error e
      | .ok parts =>
        .ok ((pyStr (dgetD skvs "value" (.vstr "")) ++ " " ++
              pyStr (dgetD skvs "currency" (.vstr ""))) :: parts)
    | _ => .error "AttributeError"

/-- The comprehension over any parsed `sums` value, with Python iteration
semantics (dict iterates keys, string iterates characters, else raises). -/
def partsOfSums : PyVal → Except String (List String)
  | .vlist xs => partsOfSumList xs
  | .vdict kvs => if kvs.isEmpty then .ok [] else .error "AttributeError"
  | .vstr s => if s.isEmpty then .ok [] else .error "AttributeError"
  | _ => .error "TypeError"

/-- The `for item in ext` loop of the `fieldList` amount branch: the first
`amount`-typed item is processed and then the loop breaks; a truthy `sumItems`
text is parsed into a comma-joined summary, falling back to the item's raw
`value` when the text is unparseable. -/
def scanSumItems (parse : String → Option PyVal) (amount : PyVal) :
    List PyVal → Except String PyVal
  | [] => .ok amount
  | item :: rest =>
    match item with
    | .vdict ikvs =>
      if isStrEq (dgetD ikvs "type" .vnone) "amount" then
        let sum_items := dgetD ikvs "sumItems" (.vstr "")
        if sum_items.truthy then
          match sum_items with
          | .vstr j =>
            match parse j with
            | some sums =>
              match partsOfSums sums with
              | .error e => .error e
              | .ok parts => .ok (.vstr (String.intercalate ", " parts))
            | none => .ok (dgetD ikvs "value" (.vstr ""))
          | _ => .error "TypeError"
        else .ok amount
      else scanSumItems parse amount rest
    | _ => .error "AttributeError"

/-- One iteration of the title/amount loop: the three `if`/`elif` branches in
document order.  Non-dict fields raise (`field.get` on a non-dict). -/
def aggStep (parse : String → Option PyVal) (title amount : PyVal) (f : PyVal) :
    Except String (PyVal × PyVal) :=
  match f with
  | .vdict kvs =>
    if isStrEq (dgetD kvs "name" .vnone) "名称" && isStrEq (dgetD kvs "type" .vnone) "input" then
      .ok (dgetD kvs "value" (.vstr ""), amount)
    else if isStrEq (dgetD kvs "name" .vnone) "金额" && isStrEq (dgetD kvs "type" .vnone) "amount" then
      .ok (title, .vstr (fmtA kvs))
    else if isStrEq (dgetD kvs "type" .vnone) "fieldList" && amount.truthy = false then
      match dgetD kvs "ext" (.vlist []) with
      | .vlist items =>
        match scanSumItems parse amount items with
        | .error e => .error e
        | .ok a => .ok (title, a)
      | _ => .ok (title, amount)
    else .ok (title, amount)
  | _ => .error "AttributeError"

/-- The full `for field in form_data` aggregation loop, threading the
`approval_title` / `approval_amount` state. -/
def aggregateFields (parse : String → Option PyVal) :
    List PyVal → PyVal → PyVal → Except String (PyVal × PyVal)
  | [], t, a => .ok (t, a)
  | f :: rest, t, a =>
    match aggStep parse t a f with
    | .error e => .error e
    | .ok (t', a') => aggregateFields parse rest t' a'

/-!
## Event gate (`handle_event`, `src/handlers/approval.py` 44-74)
-/

/-- `dict.get(key)` as an expression: raises `AttributeError` on non-dicts. -/
def pyGet (v : PyVal) (k : String) : Except String PyVal :=
  match v with
  | .vdict kvs => .ok (dgetD kvs k .vnone)
  | _ => .error "AttributeError"

/-- `dict.get(key, default)` as an expression: raises on non-dicts. -/
def pyGetD (v : PyVal) (k : String) (d : PyVal) : Except String PyVal :=
  match v with
  | .vdict kvs => .ok (dgetD kvs k d)
  | _ => .error "AttributeError"

/-- Does `hay` contain `needle` as a contiguous sublist? -/
def subSearch (needle : List Char) : List Char → Bool
  | [] => needle.isPrefixOf []
  | c :: rest => needle.isPrefixOf (c :: rest) || subSearch needle rest

/-- Python `needle in container`: substring test on strings, membership on
lists (string elements only matter here), key membership on dicts, raise
otherwise. -/
def pyIn (needle : String) (container : PyVal) : Except String Bool :=
  match container with
  | .vstr s => .ok (subSearch needle.data s.data)
  | .vlist xs => .ok (xs.any (fun x => isStrEq x needle))
  | .vdict kvs => .ok (kvs.any (fun p => p.1 = needle))
  | _ => .error "TypeError"

/-- `event_data.get("status") or event_data.get("instance_status") or
event_data.get("object", {}).get("status")` with Python short-circuiting. -/
def statusOf (event_data : PyVal) : Except String PyVal :=
  match pyGet event_data "status" with
  | .error e => .error e
  | .ok s1 =>
    if s1.truthy then .ok s1
    else
      match pyGet event_data "instance_status" with
      | .error e => .error e
      | .ok s2 =>
        if s2.truthy then .ok s2
        else
          match pyGetD event_data "object" (.vdict []) with
          | .error e => .error e
          | .ok obj => pyGet obj "status"

/-- `instance_code or approval_code or object.instance_code`. -/
def instanceCodeOf (event_data : PyVal) : Except String PyVal :=
  match pyGet event_data "instance_code" with
  | .error e => .error e
  | .ok s1 =>
    if s1.truthy then .ok s1
    else
      match pyGet event_data "approval_code" with
      | .error e => .error e
      | .ok s2 =>
        if s2.truthy then .ok s2
        else
          match pyGetD event_data "object" (.vdict []) with
          | .error e => .error e
          | .ok obj => pyGet obj "instance_code"

/-- The outcome of `handle_event` up to the decision whether to process. -/
inductive HandleResult where
  | skippedType
  | skippedStatus
  | noInstanceCode
  | processed (instanceCode : PyVal)

/-- The `handle_event` gate: skip when the event type is truthy yet lacks the
`"approval_instance"` marker; skip when the resolved status is not
`"APPROVED"`; skip when no truthy instance code is found; else process. -/
def handle_event (event : PyVal) : Except String HandleResult :=
  match pyGetD event "header" (.vdict []) with
  | .error e => .error e
  | .ok header =>
    match pyGetD header "event_type" (.vstr "") with
    | .error e => .error e
    | .ok event_type =>
      match (if event_type.truthy then pyIn "approval_instance" event_type
             else .ok true : Except String Bool) with
      | .error e => .error e
      | .ok b =>
        if b = false then .ok .skippedType
        else
          match pyGetD event "event" (.vdict []) with
          | .error e => .error e
          | .ok event_data =>
            match statusOf event_data with
            | .error e => .error e
            | .ok status =>
              if isStrEq status "APPROVED" = false then .ok .skippedStatus
              else
                match instanceCodeOf event_data with
                | .error e => .error e
                | .ok code =>
                  if code.truthy = false then .ok .noInstanceCode
                  else .ok (.processed code)

/-!
## Download step (`download_attachments`, `src/services/attachment.py` 165-193)
-/

/-- Hashability of a value (only hashable values may be dict keys). -/
def pyHashable : PyVal → Bool
  | .vlist _ => false
  | .vdict _ => false
  | _ => true

/-- Equality on hashable keys (the only keys looked up at runtime). -/
def pyKeyEq (a b : PyVal) : Bool :=
  match a, b with
  | .vnone, .vnone => true
  | .vbool x, .vbool y => x == y
  | .vnum x, .vnum y => x == y
  | .vstr x, .vstr y => x == y
  | _, _ => false

/-- `token_to_url.get(k)`: `None` when absent. -/
def lookupTok : List (PyVal × PyVal) → PyVal → PyVal
  | [], _ => .vnone
  | (k', v) :: rest, k => if pyKeyEq k' k then v else lookupTok rest k

/-- `[a.file_token for a in attachments if a.file_token and not a.download_url]`. -/
def tokensNeeding (atts : List AttachmentInfo) : List PyVal :=
  (atts.filter (fun a => a.file_token.truthy && !a.download_url.truthy)).map (fun a => a.file_token)

/-- The `token_to_url` mapping: the URL-resolution collaborator is only called
when some descriptor needs it. -/
def tokenMap (getUrls : List PyVal → List (PyVal × PyVal)) (atts : List AttachmentInfo) :
    List (PyVal × PyVal) :=
  if (tokensNeeding atts).isEmpty then [] else getUrls (tokensNeeding atts)

/-- The per-descriptor URL: `attachment.download_url or token_to_url.get(attachment.file_token)`
(the dict lookup raises on an unhashable token and is skipped when the direct
URL is truthy). -/
def urlFor (m : List (PyVal × PyVal)) (a : AttachmentInfo) : Except String PyVal :=
  if a.download_url.truthy then .ok a.download_url
  else if pyHashable a.file_token then .ok (lookupTok m a.file_token)
  else .error "TypeError"

/-- The download loop: no URL → skip; download failure (`dl url = none`) →
log and skip; success → populate `content` and keep, preserving order. -/
def downloadLoop (dl : PyVal → Option Content) (m : List (PyVal × PyVal)) :
    List AttachmentInfo → Except String (List AttachmentInfo)
  | [] => .ok []
  | a :: rest =>
    match urlFor m a with
    | .error e => .error e
    | .ok url =>
      if url.truthy = false then downloadLoop dl m rest
      else
        match dl url with
        | some c =>
          match downloadLoop dl m rest with
          | .error e => .error e
          | .ok ds => .ok ({ a with content := some c } :: ds)
        | none => downloadLoop dl m rest

/-- `download_attachments`, with the URL-resolution collaborator `getUrls` and
the byte-download collaborator `dl` (`none` models a raised download error). -/
def download_attachments (getUrls : List PyVal → List (PyVal × PyVal))
    (dl : PyVal → Option Content) (atts : List AttachmentInfo) :
    Except String (List AttachmentInfo) :=
  if atts.isEmpty then .ok []
  else downloadLoop dl (tokenMap getUrls atts) atts

/-!
## Category routing and approval processing (`src/handlers/approval.py`)
-/

/-- The static `APPROVAL_EMAIL_ATTRS` mapping: approval name → settings attribute. -/
def APPROVAL_EMAIL_ATTRS : List (String × String) :=
  [("费用报销test", "email_费用报销test"),
   ("付款test", "email_付款test"),
   ("费用报销", "email_费用报销"),
   ("付款-瑞典对公-SHIC", "email_付款_瑞典对公_shic")]

/-- First-binding string lookup (Python `dict.get`). -/
def slookup : List (String × String) → String → Option String
  | [], _ => none
  | (k, v) :: rest, key => if k = key then some v else slookup rest key

/-- `_get_target_email`: exact-name lookup, then the configured address; a
falsy attribute name or a falsy (empty) address yields `None`. -/
def get_target_email (settings : String → String) (approval_name : String) : Option String :=
  match slookup APPROVAL_EMAIL_ATTRS approval_name with
  | none => none
  | some attr =>
    if attr = "" then none
    else if settings attr = "" then none else some (settings attr)

/-- `_get_target_email` applied to the runtime `approval_name` value: a
non-string hashable misses the mapping, an unhashable value raises. -/
def get_target_email_py (settings : String → String) (approval_name : PyVal) :
    Except String (Option String) :=
  match approval_name with
  | .vstr s => .ok (get_target_email settings s)
  | .vlist _ => .error "TypeError"
  | .vdict _ => .error "TypeError"
  | _ => .ok none

/-- Outcome of `_process_approval`: one of the early skips, or a mail handed
to the delivery collaborator. -/
inductive ProcessResult where
  | noMapping
  | noAttachments
  | downloadFailed
  | emailSent (toAddr : String) (subject : String) (atts : List AttachmentInfo)

/-- `_process_approval` on a fetched `instance`: the debug dump re-parses the
form text (raising on parse failure), routing picks the target mailbox, the
aggregation loop derives title and amount, attachments are extracted and
downloaded, and the mail is sent only when at least one download succeeded. -/
def process_approval (parse : String → Option PyVal)
    (getUrls : List PyVal → List (PyVal × PyVal)) (dl : PyVal → Option Content)
    (settings : String → String) (instance_code : PyVal) (inst : PyVal) :
    Except String ProcessResult :=
  match inst with
  | .vdict ikvs =>
    let approval_name := dgetD ikvs "approval_name" (.vstr "")
    match dgetD ikvs "form" (.vstr "[]") with
    | .vstr form_json =>
      match parse form_json with
      | none => .error "JSONDecodeError"
      | some form_data =>
        match get_target_email_py settings approval_name with
        | .error e => .error e
        | .ok none => .ok .noMapping
        | .ok (some target_email) =>
          match pyIter form_data with
          | .error e => .error e
          | .ok fields =>
            match aggregateFields parse fields (.vstr "") (.vstr "") with
            | .error e => .error e
            | .ok (title0, approval_amount) =>
              let approval_title :=
                if title0.truthy then title0 else dgetD ikvs "serial_number" instance_code
              match extract_attachments_from_form parse form_json with
              | .error e => .error e
              | .ok attachments =>
                if attachments.isEmpty then .ok .noAttachments
                else
                  match download_attachments getUrls dl attachments with
                  | .error e => .error e
                  | .ok downloaded =>
                    if downloaded.isEmpty then .ok .downloadFailed
                    else
                      .ok (.emailSent target_email
                        ("[" ++ pyStr approval_name ++ "]-" ++ pyStr approval_title)
                        downloaded)
    | _ => .error "TypeError"
  | _ => .error "AttributeError"

/-!
## Config-value encryption (`src/utils/crypto_utils.py`)

`base64` and `str.encode`/`bytes.decode` are stdlib collaborators and are
passed as parameters (`b64e`/`b64d`, `encode`/`decode`); the XOR keystream and
the `"ENC:"` framing are modelled from the source.
-/

/-- `key * (n // len(key) + 1)`: the repeated XOR keystream. -/
def keyStream (key : List Nat) (n : Nat) : List Nat :=
  (List.replicate (n / key.length + 1) key).flatten

/-- `bytes(a ^ b for a, b in zip(xs, ks))`. -/
def xorBytes (xs ks : List Nat) : List Nat := List.zipWith (fun a b => a ^^^ b) xs ks

/-- Python character slicing `s[n:]`. -/
def strDrop (s : String) (n : Nat) : String := String.mk (s.data.drop n)

/-- `encrypt`: XOR with the keystream, base64, and the `"ENC:"` prefix.  The
keystream is sized by `len(plaintext)` — the CHARACTER count — while the XOR
runs over the encoded bytes, so `zip` silently truncates a multibyte
plaintext whose byte encoding outruns the keystream. -/
def encrypt (b64e : List Nat → String) (encode : String → List Nat)
    (key : List Nat) (plaintext : String) : String :=
  "ENC:" ++ b64e (xorBytes (encode plaintext) (keyStream key plaintext.length))

/-- `decrypt`: identity on inputs without the `"ENC:"` prefix, else base64
decode, XOR, and byte decode (`none` models a raised decode error). -/
def decrypt (b64d : String → Option (List Nat)) (decode : List Nat → Option String)
    (key : List Nat) (ciphertext : String) : Option String :=
  if strStartsWith ciphertext "ENC:" = false then some ciphertext
  else
    match b64d (strDrop ciphertext 4) with
    | none => none
    | some encrypted => decode (xorBytes encrypted (keyStream key encrypted.length))

/-!
## Shared lemmas
-/

theorem extract_eq_flatten_aux (parse : String → Option PyVal) :
    ∀ n : Nat,
      (∀ cs : List PyVal, sizeOf cs ≤ n →
        extractCtrls parse cs = (flattenCtrls cs).flatMap (resolveLeaf parse)) ∧
      (∀ c : PyVal, sizeOf c ≤ n →
        extractCtrl parse c = (flattenCtrl c).flatMap (resolveLeaf parse)) ∧
      (∀ rows : List PyVal, sizeOf rows ≤ n →
        extractRows parse rows = (flattenRows rows).flatMap (resolveLeaf parse)) := by
  intro n
  induction n using Nat.strong_induction_on with
  | _ n ih =>
    refine ⟨?_, ?_, ?_⟩
    · intro cs hcs
      cases cs with
      | nil => simp [extractCtrls, flattenCtrls]
      | cons c rest =>
        simp only [List.cons.sizeOf_spec] at hcs
        have hc : sizeOf c < n := by omega
        have hr : sizeOf rest < n := by omega
        rw [extractCtrls, flattenCtrls, List.flatMap_append,
          (ih _ hc).2.1 c le_rfl, (ih _ hr).1 rest le_rfl]
    · intro c hc0
      cases c with
      | vdict kvs =>
        by_cases hfl : isStrEq (dgetD kvs "type" (.vstr "")) "fieldList" = true
        · simp only [extractCtrl, flattenCtrl, hfl, if_true]
          split
          · rename_i rows heq
            have hrows : sizeOf rows < n := by
              have := dgetD_vlist_sizeOf heq
              simp only [PyVal.vdict.sizeOf_spec] at hc0 this
              omega
            exact (ih _ hrows).2.2 rows le_rfl
          · simp
        · simp only [extractCtrl, flattenCtrl, hfl, if_false, Bool.false_eq_true,
            List.flatMap_cons, List.flatMap_nil, List.append_nil, resolveLeaf]
      | vnone => simp [extractCtrl, flattenCtrl, resolveLeaf]
      | vbool b => simp [extractCtrl, flattenCtrl, resolveLeaf]
      | vnum m => simp [extractCtrl, flattenCtrl, resolveLeaf]
      | vstr s => simp [extractCtrl, flattenCtrl, resolveLeaf]
      | vlist xs => simp [extractCtrl, flattenCtrl, resolveLeaf]
    · intro rows hrows
      cases rows with
      | nil => simp [extractRows, flattenRows]
      | cons r rest =>
        simp only [List.cons.sizeOf_spec] at hrows
        have hr : sizeOf rest < n := by omega
        cases r with
        | vlist cs =>
          have hcs : sizeOf cs < n := by
            simp only [PyVal.vlist.sizeOf_spec] at hrows
            omega
          rw [extractRows, flattenRows, List.flatMap_append,
            (ih _ hcs).1 cs le_rfl, (ih _ hr).2.2 rest le_rfl]
        | vnone => simp only [extractRows, flattenRows]; exact (ih _ hr).2.2 rest le_rfl
        | vbool b => simp only [extractRows, flattenRows]; exact (ih _ hr).2.2 rest le_rfl
        | vnum m => simp only [extractRows, flattenRows]; exact (ih _ hr).2.2 rest le_rfl
        | vstr s => simp only [extractRows, flattenRows]; exact (ih _ hr).2.2 rest le_rfl
        | vdict kvs => simp only [extractRows, flattenRows]; exact (ih _ hr).2.2 rest le_rfl

theorem extractCtrls_eq_flatten (parse : String → Option PyVal) (cs : List PyVal) :
    extractCtrls parse cs = (flattenCtrls cs).flatMap (resolveLeaf parse) :=
  (extract_eq_flatten_aux parse (sizeOf cs)).1 cs le_rfl

/-- The construction-time shape of a descriptor: content absent, and each of
the two locator fields either truthy or exactly the empty string. -/
def descShape (d : AttachmentInfo) : Prop :=
  d.content = none ∧
    (d.file_token.truthy = true ∨ d.file_token = .vstr "") ∧
    (d.download_url.truthy = true ∨ d.download_url = .vstr "")

theorem pyOr_empty_trichotomy (a b : PyVal) :
    (pyOr (pyOr a b) (.vstr "")).truthy = true ∨ pyOr (pyOr a b) (.vstr "") = .vstr "" := by
  unfold pyOr
  by_cases ha : a.truthy = true
  · simp [ha]
  · simp only [ha]
    by_cases hb : b.truthy = true
    · simp [ha, hb]
    · simp [ha, hb]

theorem truthy_of_startsWith_http {s : String} (h : strStartsWith s "http" = true) :
    (PyVal.vstr s).truthy = true := by
  rcases s with ⟨data⟩
  cases data with
  | nil => simp [strStartsWith, listPrefix] at h
  | cons c cs =>
    simp [PyVal.truthy, String.ext_iff]

theorem descShape_resolveFile {extNames : List PyVal} {i : Nat} {f : PyVal}
    {d : AttachmentInfo} (h : d ∈ resolveFile extNames i f) : descShape d := by
  cases f with
  | vstr s =>
    simp only [resolveFile] at h
    split at h
    · rename_i hhttp
      simp only [List.mem_singleton] at h
      subst h
      exact ⟨rfl, Or.inr rfl, Or.inl (truthy_of_startsWith_http hhttp)⟩
    · simp at h
  | vdict fkvs =>
    simp only [resolveFile, List.mem_singleton] at h
    subst h
    exact ⟨rfl, pyOr_empty_trichotomy _ _, pyOr_empty_trichotomy _ _⟩
  | vnone => simp [resolveFile] at h
  | vbool b => simp [resolveFile] at h
  | vnum m => simp [resolveFile] at h
  | vlist xs => simp [resolveFile] at h

theorem descShape_resolveFiles {extNames : List PyVal} {files : List PyVal}
    {d : AttachmentInfo} : ∀ {i : Nat}, d ∈ resolveFiles extNames i files → descShape d := by
  induction files with
  | nil => intro i h; simp [resolveFiles] at h
  | cons f rest ih =>
    intro i h
    rw [resolveFiles, List.mem_append] at h
    rcases h with h | h
    · exact descShape_resolveFile h
    · exact ih h

theorem descShape_resolveValue {kvs : List (String × PyVal)} {v : PyVal}
    {d : AttachmentInfo} (h : d ∈ resolveValue kvs v) : descShape d := by
  simp only [resolveValue] at h
  exact descShape_resolveFiles h

theorem descShape_resolveAttachmentCtrl {parse : String → Option PyVal}
    {kvs : List (String × PyVal)} {d : AttachmentInfo}
    (h : d ∈ resolveAttachmentCtrl parse kvs) : descShape d := by
  simp only [resolveAttachmentCtrl] at h
  split at h
  · simp at h
  · split at h
    · rename_i s
      split at h
      · split at h
        · rename_i hhttp
          simp only [List.mem_singleton] at h
          subst h
          exact ⟨rfl, Or.inr rfl, Or.inl (truthy_of_startsWith_http hhttp)⟩
        · simp at h
      · exact descShape_resolveValue h
    · exact descShape_resolveValue h

theorem descShape_resolveLeaf {parse : String → Option PyVal} {c : PyVal}
    {d : AttachmentInfo} (h : d ∈ resolveLeaf parse c) : descShape d := by
  simp only [resolveLeaf] at h
  split at h
  · split at h
    · simp at h
    · split at h
      · exact descShape_resolveAttachmentCtrl h
      · simp at h
  · simp at h

/-- Every descriptor emitted by the recursive walk has `content = none` and
truthy-or-empty locator fields. -/
theorem descShape_extractCtrls {parse : String → Option PyVal} {cs : List PyVal}
    {d : AttachmentInfo} (h : d ∈ extractCtrls parse cs) : descShape d := by
  rw [extractCtrls_eq_flatten] at h
  rw [List.mem_flatMap] at h
  obtain ⟨c, -, hc⟩ := h
  exact descShape_resolveLeaf hc

/-- Does a control hit the title branch (`name == "名称" and type == "input"`)? -/
def isTitleMatch (f : PyVal) : Bool :=
  match f with
  | .vdict kvs =>
    isStrEq (dgetD kvs "name" .vnone) "名称" && isStrEq (dgetD kvs "type" .vnone) "input"
  | _ => false

/-- The value a title-branch hit assigns. -/
def titleValue (f : PyVal) : PyVal :=
  match f with
  | .vdict kvs => dgetD kvs "value" (.vstr "")
  | _ => .vstr ""

/-- Does a control hit the variant-A amount branch (`name == "金额" and type == "amount"`)? -/
def isAmountAMatch (f : PyVal) : Bool :=
  match f with
  | .vdict kvs =>
    isStrEq (dgetD kvs "name" .vnone) "金额" && isStrEq (dgetD kvs "type" .vnone) "amount"
  | _ => false

/-- The amount string a variant-A hit assigns. -/
def fmtAOf (f : PyVal) : String :=
  match f with
  | .vdict kvs => fmtA kvs
  | _ => ""

/-- The value of the last title-branch hit of the sequence, if any. -/
def lastTitleAux (acc : Option PyVal) : List PyVal → Option PyVal
  | [] => acc
  | f :: rest => lastTitleAux (if isTitleMatch f then some (titleValue f) else acc) rest

def lastTitle (cs : List PyVal) : Option PyVal := lastTitleAux none cs

/-- The formatted amount of the last variant-A hit of the sequence, if any. -/
def lastAmountAAux (acc : Option String) : List PyVal → Option String
  | [] => acc
  | f :: rest => lastAmountAAux (if isAmountAMatch f then some (fmtAOf f) else acc) rest

def lastAmountA (cs : List PyVal) : Option String := lastAmountAAux none cs

theorem isStrEq_excl {v : PyVal} {s1 s2 : String} (h : isStrEq v s1 = true) (hne : s1 ≠ s2) :
    isStrEq v s2 = false := by
  cases v with
  | vstr t =>
    simp only [isStrEq, decide_eq_true_eq] at h
    subst h
    simp [isStrEq, hne]
  | vnone => rfl
  | vbool b => rfl
  | vnum n => rfl
  | vlist l => rfl
  | vdict k => rfl

theorem fmtA_truthy (kvs : List (String × PyVal)) : (PyVal.vstr (fmtA kvs)).truthy = true := by
  simp only [PyVal.truthy, decide_eq_true_eq]
  unfold fmtA
  intro h
  have hd := congrArg String.data h
  simp only [String.data_append] at hd
  simp at hd

/-- Exhaustive case analysis of one aggregation step. -/
theorem aggStep_cases {parse : String → Option PyVal} {t a f t1 a1 : PyVal}
    (h : aggStep parse t a f = .ok (t1, a1)) :
    (isTitleMatch f = true ∧ t1 = titleValue f ∧ a1 = a) ∨
    (isTitleMatch f = false ∧ isAmountAMatch f = true ∧ t1 = t ∧ a1 = .vstr (fmtAOf f)) ∨
    (isTitleMatch f = false ∧ isAmountAMatch f = false ∧ t1 = t ∧
      (a.truthy = true → a1 = a)) := by
  cases f with
  | vdict kvs =>
    simp only [aggStep] at h
    split at h
    · rename_i hc
      cases h
      exact Or.inl ⟨by simpa [isTitleMatch] using hc, by simp [titleValue], rfl⟩
    · rename_i hc1
      split at h
      · rename_i hc2
        cases h
        refine Or.inr (Or.inl ⟨?_, by simpa [isAmountAMatch] using hc2, rfl, by simp [fmtAOf]⟩)
        simp only [isTitleMatch]
        simpa using hc1
      · rename_i hc2
        have hT : isTitleMatch (PyVal.vdict kvs) = false := by
          simp only [isTitleMatch]; simpa using hc1
        split at h
        · rename_i hc3
          have hA : isAmountAMatch (PyVal.vdict kvs) = false := by
            simp only [isAmountAMatch]
            have hfl := (Bool.and_eq_true _ _).mp hc3
            have := isStrEq_excl hfl.1 (by decide : "fieldList" ≠ "amount")
            simp [this]
          have hat : a.truthy = false := by
            have := (Bool.and_eq_true _ _).mp hc3
            simpa using this.2
          split at h
          · split at h
            · exact absurd h (by simp)
            · cases h
              exact Or.inr (Or.inr ⟨hT, hA, rfl, fun ht => by rw [ht] at hat; cases hat⟩)
          all_goals
            cases h
            exact Or.inr (Or.inr ⟨hT, hA, rfl, fun _ => rfl⟩)
        · rename_i hc3
          have hA : isAmountAMatch (PyVal.vdict kvs) = false := by
            simp only [isAmountAMatch]; simpa using hc2
          cases h
          exact Or.inr (Or.inr ⟨hT, hA, rfl, fun _ => rfl⟩)
  | vnone => exact absurd h (by simp [aggStep])
  | vbool b => exact absurd h (by simp [aggStep])
  | vnum m => exact absurd h (by simp [aggStep])
  | vstr s => exact absurd h (by simp [aggStep])
  | vlist xs => exact absurd h (by simp [aggStep])

theorem lastTitleAux_some (cs : List PyVal) :
    ∀ v, lastTitleAux (some v) cs = some ((lastTitle cs).getD v) := by
  induction cs with
  | nil => intro v; rfl
  | cons f rest ih =>
    intro v
    by_cases hm : isTitleMatch f = true
    · simp only [lastTitleAux, lastTitle, hm, if_true, ih, Option.getD_some]
    · simp only [Bool.not_eq_true] at hm
      simp only [lastTitleAux, lastTitle, hm, Bool.false_eq_true, if_false, ih]

theorem lastAmountAAux_some (cs : List PyVal) :
    ∀ v, lastAmountAAux (some v) cs = some ((lastAmountA cs).getD v) := by
  induction cs with
  | nil => intro v; rfl
  | cons f rest ih =>
    intro v
    by_cases hm : isAmountAMatch f = true
    · simp only [lastAmountAAux, lastAmountA, hm, if_true, ih, Option.getD_some]
    · simp only [Bool.not_eq_true] at hm
      simp only [lastAmountAAux, lastAmountA, hm, Bool.false_eq_true, if_false, ih]

theorem lastAmountA_none {cs : List PyVal} (h : lastAmountA cs = none) :
    ∀ f ∈ cs, isAmountAMatch f = false := by
  induction cs with
  | nil => intro f hf; cases hf
  | cons g rest ih =>
    intro f hf
    by_cases hm : isAmountAMatch g = true
    · exfalso
      simp only [lastAmountA, lastAmountAAux, hm, if_true] at h
      rw [lastAmountAAux_some] at h
      cases h
    · simp only [Bool.not_eq_true] at hm
      simp only [lastAmountA, lastAmountAAux, hm, Bool.false_eq_true, if_false] at h
      rcases List.mem_cons.mp hf with rfl | hf
      · exact hm
      · exact ih h f hf

/-- The amount state survives a stretch with no variant-A hit once truthy. -/
theorem agg_preserve {parse : String → Option PyVal} :
    ∀ {cs : List PyVal} {t a t' a' : PyVal}, a.truthy = true →
      (∀ f ∈ cs, isAmountAMatch f = false) →
      aggregateFields parse cs t a = .ok (t', a') → a' = a := by
  intro cs
  induction cs with
  | nil =>
    intro t a t' a' _ _ h
    simp only [aggregateFields, Except.ok.injEq, Prod.mk.injEq] at h
    exact h.2.symm
  | cons f rest ih =>
    intro t a t' a' ha hno h
    simp only [aggregateFields] at h
    split at h
    · cases h
    · rename_i step t1 a1 hstep
      rcases aggStep_cases hstep with ⟨_, _, ha1⟩ | ⟨_, hA, _, _⟩ | ⟨_, _, _, ha1⟩
      · subst ha1
        exact ih ha (fun g hg => hno g (List.mem_cons_of_mem f hg)) h
      · exact absurd hA (by simp [hno f (List.mem_cons_self f rest)])
      · rw [ha1 ha] at h
        exact ih ha (fun g hg => hno g (List.mem_cons_of_mem f hg)) h

/-- The final title is the value of the last title-branch hit. -/
theorem agg_title {parse : String → Option PyVal} :
    ∀ {cs : List PyVal} {t a t' a' : PyVal},
      aggregateFields parse cs t a = .ok (t', a') → t' = (lastTitle cs).getD t := by
  intro cs
  induction cs with
  | nil =>
    intro t a t' a' h
    simp only [aggregateFields, Except.ok.injEq, Prod.mk.injEq] at h
    simp [lastTitle, lastTitleAux, h.1.symm]
  | cons f rest ih =>
    intro t a t' a' h
    simp only [aggregateFields] at h
    split at h
    · cases h
    · rename_i step t1 a1 hstep
      have hrec := ih h
      rcases aggStep_cases hstep with ⟨hm, ht1, _⟩ | ⟨hm, _, ht1, _⟩ | ⟨hm, _, ht1, _⟩
      · subst ht1
        simp only [lastTitle, lastTitleAux, hm, if_true]
        rw [lastTitleAux_some]
        simp only [Option.getD_some]
        exact hrec
      · subst ht1
        simp only [lastTitle, lastTitleAux, hm, Bool.false_eq_true, if_false]
        exact hrec
      · subst ht1
        simp only [lastTitle, lastTitleAux, hm, Bool.false_eq_true, if_false]
        exact hrec

theorem fmtAOf_truthy {f : PyVal} (h : isAmountAMatch f = true) :
    (PyVal.vstr (fmtAOf f)).truthy = true := by
  cases f with
  | vdict kvs => exact fmtA_truthy kvs
  | vnone => cases h
  | vbool b => cases h
  | vnum n => cases h
  | vstr s => cases h
  | vlist l => cases h

/-- The final amount is the formatted string of the last variant-A hit. -/
theorem agg_amount {parse : String → Option PyVal} :
    ∀ {cs : List PyVal} {t a t' a' : PyVal} {s : String},
      aggregateFields parse cs t a = .ok (t', a') → lastAmountA cs = some s →
      a' = .vstr s := by
  intro cs
  induction cs with
  | nil => intro t a t' a' s _ hl; cases hl
  | cons f rest ih =>
    intro t a t' a' s h hl
    simp only [aggregateFields] at h
    split at h
    · cases h
    · rename_i step t1 a1 hstep
      rcases aggStep_cases hstep with ⟨hm, _, _⟩ | ⟨_, hm, _, ha1⟩ | ⟨_, hm, _, _⟩
      · have hmA : isAmountAMatch f = false := by
          cases f with
          | vdict kvs =>
            simp only [isTitleMatch, Bool.and_eq_true] at hm
            simp only [isAmountAMatch]
            have := isStrEq_excl hm.1 (by decide : "名称" ≠ "金额")
            simp [this]
          | vnone => rfl
          | vbool b => rfl
          | vnum n => rfl
          | vstr s => rfl
          | vlist l => rfl
        simp only [lastAmountA, lastAmountAAux, hmA, Bool.false_eq_true, if_false] at hl
        exact ih h hl
      · subst ha1
        simp only [lastAmountA, lastAmountAAux, hm, if_true] at hl
        rw [lastAmountAAux_some] at hl
        cases hg : lastAmountA rest with
        | some s1 =>
          rw [hg] at hl
          simp only [Option.getD_some, Option.some.injEq] at hl
          subst hl
          exact ih h hg
        | none =>
          rw [hg] at hl
          simp only [Option.getD_none, Option.some.injEq] at hl
          subst hl
          have := agg_preserve (fmtAOf_truthy hm) (lastAmountA_none hg) h
          rw [this]
      · simp only [lastAmountA, lastAmountAAux, hm, Bool.false_eq_true, if_false] at hl
        exact ih h hl

/-!
## Concrete documents used by the claim theorems
-/

/-- A parse function that always fails (no string under test is valid JSON). -/
def parseNone : String → Option PyVal := fun _ => none

/-- Two title-matching controls followed by two variant-A amount controls. -/
def c1doc : List PyVal :=
  [.vdict [("name", .vstr "名称"), ("type", .vstr "input"), ("value", .vstr "A")],
   .vdict [("name", .vstr "名称"), ("type", .vstr "input"), ("value", .vstr "B")],
   .vdict [("name", .vstr "金额"), ("type", .vstr "amount"), ("value", .vstr "1")],
   .vdict [("name", .vstr "金额"), ("type", .vstr "amount"), ("value", .vstr "2")]]

/-- One attachment control whose value carries two URL entries. -/
def c2doc : List PyVal :=
  [.vdict [("type", .vstr "attachmentV2"),
           ("value", .vlist [.vstr "http://a", .vstr "http://b"])]]

/-- Scenario 4: an `attachmentV2` control with a bare URL string and no ext. -/
def c3doc : List PyVal :=
  [.vdict [("type", .vstr "attachmentV2"), ("value", .vstr "http://x/y.pdf")]]

/-- An attachment control whose single structured entry has no token and no URL. -/
def c4doc : List PyVal :=
  [.vdict [("type", .vstr "attachmentV2"), ("value", .vlist [.vdict []])]]

/-- The descriptor `c4doc` produces: empty token, fallback name, empty URL. -/
def c4desc : AttachmentInfo :=
  { file_token := .vstr "", name := .vstr (fallbackName 0), mime_type := .vstr "",
    content := none, download_url := .vstr "" }

/-!
## Claim theorems
-/

/-- C1, counterexample: on a form with two title hits (`"A"` then `"B"`) and
two variant-A amount hits (`"1"` then `"2"`), the aggregation loop returns the
LAST hits (`"B"`, `"2 SEK"`), not the first ones (`"A"`, `"1 SEK"`) the claim
demands. -/
theorem c1_counterexample :
    aggregateFields parseNone c1doc (.vstr "") (.vstr "") =
      .ok (.vstr "B", .vstr "2 SEK") ∧
    (PyVal.vstr "B", PyVal.vstr "2 SEK") ≠ (PyVal.vstr "A", PyVal.vstr "1 SEK") := by
  constructor
  · simp [aggregateFields, aggStep, c1doc, dgetD, dget?, isStrEq, fmtA, pyStr, PyVal.truthy]
  · intro h
    simp at h

/-- C1 (amended): each matching control overwrites the previous value, so for
every flattened fields sequence on which the loop succeeds, the extracted
title is the value of the LAST title-branch hit (the initial empty string if
none), and the variant-A amount is the formatted string of the LAST monetary
hit whenever one exists. -/
theorem c1_amended_theorem (parse : String → Option PyVal) (cs : List PyVal)
    (t' a' : PyVal)
    (h : aggregateFields parse cs (.vstr "") (.vstr "") = .ok (t', a')) :
    t' = (lastTitle cs).getD (.vstr "") ∧
    ∀ s, lastAmountA cs = some s → a' = .vstr s :=
  ⟨agg_title h, fun _ hs => agg_amount h hs⟩

/-- C1, witness: the amended theorem applied to the concrete four-control form. -/
theorem c1_witness :
    PyVal.vstr "B" = (lastTitle c1doc).getD (.vstr "") ∧
    PyVal.vstr "2 SEK" = .vstr "2 SEK" := by
  have h := c1_amended_theorem parseNone c1doc (.vstr "B") (.vstr "2 SEK")
    (by simp [aggregateFields, aggStep, c1doc, dgetD, dget?, isStrEq, fmtA, pyStr, PyVal.truthy])
  refine ⟨h.1, h.2 "2 SEK" ?_⟩
  simp [lastAmountA, lastAmountAAux, c1doc, isAmountAMatch, isStrEq, dgetD, dget?,
    fmtAOf, fmtA, pyStr]

/-- C2, counterexample: a document whose single attachment control carries two
URL entries emits two descriptors, while the number of attachment-typed
controls at all nesting depths is one. -/
theorem c2_counterexample :
    (extractCtrls parseNone c2doc).length = 2 ∧
    ((flattenCtrls c2doc).filter isAttachTyped).length = 1 ∧ (2 : Nat) ≠ 1 := by
  refine ⟨?_, ?_, by decide⟩
  · simp [extractCtrls, extractCtrl, c2doc, resolveAttachmentCtrl, resolveValue,
      resolveFiles, resolveFile, extFilenames, dgetD, dget?, isStrEq, PyVal.truthy,
      parseNone, strStartsWith, listPrefix]
  · simp [flattenCtrls, flattenCtrl, c2doc, isAttachTyped, dgetD, dget?, isStrEq]

/-- C2 (amended): the walk reaches every control at every nesting depth inside
`fieldList` rows, in document order: its output is the concatenation of each
flattened control's own descriptors.  The descriptor count therefore equals
the total number of accepted file entries, not the number of attachment
controls (one control may contribute zero or several descriptors); fields are
aggregated only over the sequence handed to the aggregation loop. -/
theorem c2_amended_theorem (parse : String → Option PyVal) (cs : List PyVal) :
    extractCtrls parse cs = (flattenCtrls cs).flatMap (resolveLeaf parse) :=
  extractCtrls_eq_flatten parse cs

/-- C3, counterexample: the bare-URL fallback names the descriptor
`"attachment"`, not `"attachment_1"` as the claim states. -/
theorem c3_counterexample :
    (extractCtrls parseNone c3doc).map (fun d => d.name) = [.vstr "attachment"] ∧
    PyVal.vstr "attachment" ≠ .vstr "attachment_1" := by
  constructor
  · simp [extractCtrls, extractCtrl, c3doc, resolveAttachmentCtrl, dgetD, dget?,
      isStrEq, PyVal.truthy, parseNone, strStartsWith, listPrefix]
  · intro h
    simp at h

/-- C3 (amended): for an `attachmentV2` control whose value is the bare URL
string `"http://x/y.pdf"` (unparseable as JSON) and which has no ext, the
resolver returns exactly one descriptor with name `"attachment"`, downloadUrl
equal to the string, and an empty fileToken. -/
theorem c3_amended_theorem (parse : String → Option PyVal)
    (h : parse "http://x/y.pdf" = none) :
    extractCtrls parse c3doc =
      [{ file_token := .vstr "", name := .vstr "attachment", mime_type := .vstr "",
         content := none, download_url := .vstr "http://x/y.pdf" }] := by
  simp [extractCtrls, extractCtrl, c3doc, resolveAttachmentCtrl, dgetD, dget?,
    isStrEq, PyVal.truthy, h, strStartsWith, listPrefix]

/-- C3, witness: the amended theorem at the always-failing parse function. -/
theorem c3_witness :
    extractCtrls parseNone c3doc =
      [{ file_token := .vstr "", name := .vstr "attachment", mime_type := .vstr "",
         content := none, download_url := .vstr "http://x/y.pdf" }] :=
  c3_amended_theorem parseNone rfl

/-- C4, counterexample: a structured entry with neither token nor URL keys
produces a descriptor whose fileToken and downloadUrl are BOTH empty, refuting
the claimed at-least-one-non-empty invariant. -/
theorem c4_counterexample :
    (extractCtrls parseNone c4doc).map (fun d => (d.file_token, d.download_url)) =
      [(.vstr "", .vstr "")] ∧
    (PyVal.vstr "").truthy = false := by
  constructor
  · simp [extractCtrls, extractCtrl, c4doc, resolveAttachmentCtrl, resolveValue,
      resolveFiles, resolveFile, extFilenames, dgetD, dget?, isStrEq, PyVal.truthy,
      parseNone, pyOr]
  · rfl

/-- C4 (amended): every descriptor the resolver constructs has `content`
absent, its fileToken either truthy or exactly the empty string, and its
downloadUrl either truthy or exactly the empty string — a structured entry
with no truthy token/url values yields both locators empty (such a descriptor
is later dropped silently by the download step). -/
theorem c4_amended_theorem (parse : String → Option PyVal) (cs : List PyVal)
    (d : AttachmentInfo) (h : d ∈ extractCtrls parse cs) :
    d.content = none ∧
      (d.file_token.truthy = true ∨ d.file_token = .vstr "") ∧
      (d.download_url.truthy = true ∨ d.download_url = .vstr "") :=
  descShape_extractCtrls h

/-- C4, witness: the amended invariant at the keyless-entry document. -/
theorem c4_witness :
    c4desc.content = none ∧
      (c4desc.file_token.truthy = true ∨ c4desc.file_token = .vstr "") ∧
      (c4desc.download_url.truthy = true ∨ c4desc.download_url = .vstr "") :=
  c4_amended_theorem parseNone c4doc c4desc
    (by simp [extractCtrls, extractCtrl, c4doc, c4desc, resolveAttachmentCtrl,
      resolveValue, resolveFiles, resolveFile, extFilenames, dgetD, dget?, isStrEq,
      PyVal.truthy, parseNone, pyOr])

/-- C6: for every input text on which the JSON parse fails,
`extract_attachments_from_form` returns the empty list and raises nothing. -/
theorem c6_theorem (parse : String → Option PyVal) (s : String)
    (h : parse s = none) :
    extract_attachments_from_form parse s = .ok [] := by
  simp [extract_attachments_from_form, h]

/-- C6, witness: concrete malformed input. -/
theorem c6_witness : extract_attachments_from_form parseNone "not structured" = .ok [] :=
  c6_theorem parseNone "not structured" rfl

theorem isStrEq_eq {v : PyVal} {s : String} (h : isStrEq v s = true) : v = .vstr s := by
  cases v with
  | vstr t =>
    simp only [isStrEq, decide_eq_true_eq] at h
    rw [h]
  | vnone => cases h
  | vbool b => cases h
  | vnum n => cases h
  | vlist l => cases h
  | vdict k => cases h

/-- An envelope with no header at all but an APPROVED status and an instance code. -/
def c5ev : PyVal :=
  .vdict [("event", .vdict [("status", .vstr "APPROVED"), ("instance_code", .vstr "X")])]

/-- C5, counterexample: the gate lets the no-header envelope through (its
event type resolves to the empty string, which does not contain the
`"approval_instance"` marker), refuting "proceeds only if the header
event-type contains the marker". -/
theorem c5_counterexample :
    handle_event c5ev = .ok (.processed (.vstr "X")) ∧
    pyGetD c5ev "header" (.vdict []) = .ok (.vdict []) ∧
    pyGetD (.vdict []) "event_type" (.vstr "") = .ok (.vstr "") ∧
    subSearch "approval_instance".data "".data = false := by
  refine ⟨?_, ?_, ?_, ?_⟩ <;> rfl

/-- C5 (amended): processing gets past the gate only if the resolved header
event-type is falsy (absent/empty) OR contains the `"approval_instance"`
marker, AND the resolved status equals `"APPROVED"`. -/
theorem c5_amended_theorem (ev : PyVal) (r : HandleResult)
    (h : handle_event ev = .ok r)
    (hr : r ≠ .skippedType ∧ r ≠ .skippedStatus) :
    ∃ header et ed,
      pyGetD ev "header" (.vdict []) = .ok header ∧
      pyGetD header "event_type" (.vstr "") = .ok et ∧
      (et.truthy = false ∨ pyIn "approval_instance" et = .ok true) ∧
      pyGetD ev "event" (.vdict []) = .ok ed ∧
      statusOf ed = .ok (.vstr "APPROVED") := by
  unfold handle_event at h
  split at h
  · cases h
  · rename_i header hheader
    split at h
    · cases h
    · rename_i et het
      split at h
      · cases h
      · rename_i b hb
        split at h
        · cases h
          exact absurd rfl hr.1
        · rename_i hbt
          split at h
          · cases h
          · rename_i ed hed
            split at h
            · cases h
            · rename_i status hstatus
              split at h
              · cases h
                exact absurd rfl hr.2
              · rename_i happ
                refine ⟨header, et, ed, hheader, het, ?_, hed, ?_⟩
                · by_cases htr : et.truthy = true
                  · right
                    rw [htr, if_pos rfl] at hb
                    have : b = true := by
                      cases b
                      · exact absurd rfl hbt
                      · rfl
                    rw [this] at hb
                    exact hb
                  · left
                    simpa using htr
                · have : status = .vstr "APPROVED" := by
                    apply isStrEq_eq
                    cases hq : isStrEq status "APPROVED"
                    · rw [hq] at happ
                      exact absurd rfl happ
                    · rfl
                  rw [← this]
                  exact hstatus

/-- A well-formed approved envelope whose event type carries the marker. -/
def c5evGood : PyVal :=
  .vdict [("header", .vdict [("event_type", .vstr "approval_instance_status_change")]),
          ("event", .vdict [("status", .vstr "APPROVED"), ("instance_code", .vstr "I1")])]

/-- C5, witness: the amended gate conditions hold on a concrete event the
handler processes. -/
theorem c5_witness :
    ∃ header et ed,
      pyGetD c5evGood "header" (.vdict []) = .ok header ∧
      pyGetD header "event_type" (.vstr "") = .ok et ∧
      (et.truthy = false ∨ pyIn "approval_instance" et = .ok true) ∧
      pyGetD c5evGood "event" (.vdict []) = .ok ed ∧
      statusOf ed = .ok (.vstr "APPROVED") :=
  c5_amended_theorem c5evGood (.processed (.vstr "I1")) (by rfl)
    (by constructor <;> (intro h; cases h))

/-- A `sumItems` entry `{"value": v, "currency": c}`. -/
def mkSumItem (v c : String) : PyVal := .vdict [("value", .vstr v), ("currency", .vstr c)]

/-- The parsed nested summary list. -/
def encodeSums (ps : List (String × String)) : PyVal :=
  .vlist (ps.map (fun p => mkSumItem p.1 p.2))

/-- The comma-joined `"value currency"` rendering. -/
def renderSums (ps : List (String × String)) : String :=
  String.intercalate ", " (ps.map (fun p => p.1 ++ " " ++ p.2))

/-- A `fieldList` control whose `ext` holds one monetary summary item with the
(JSON-encoded) `sumItems` text `j` and raw value `v`. -/
def flCtrl (j : String) (v : PyVal) : PyVal :=
  .vdict [("type", .vstr "fieldList"),
          ("ext", .vlist [.vdict [("type", .vstr "amount"),
                                  ("sumItems", .vstr j), ("value", v)]])]

theorem partsOfSumList_encode (ps : List (String × String)) :
    partsOfSumList (ps.map (fun p => mkSumItem p.1 p.2)) =
      .ok (ps.map (fun p => p.1 ++ " " ++ p.2)) := by
  induction ps with
  | nil => rfl
  | cons p rest ih =>
    simp only [mkSumItem] at ih
    simp [partsOfSumList, mkSumItem, ih, dgetD, dget?, pyStr]

/-- C7: a `fieldList` control's monetary summary entry yields the amount: its
parsed `sumItems` list is rendered as the comma-joined `"value currency"`
sequence, a later grouping control cannot override a truthy summary, and a
parse failure on the nested text falls back to the entry's raw value. -/
theorem c7_theorem (parse : String → Option PyVal) (j j2 : String) (v v2 : PyVal)
    (ps : List (String × String)) (hjt : (PyVal.vstr j).truthy = true) :
    (parse j = some (encodeSums ps) → (PyVal.vstr (renderSums ps)).truthy = true →
      aggregateFields parse [flCtrl j v, flCtrl j2 v2] (.vstr "") (.vstr "") =
        .ok (.vstr "", .vstr (renderSums ps))) ∧
    (parse j = none →
      aggregateFields parse [flCtrl j v] (.vstr "") (.vstr "") = .ok (.vstr "", v)) := by
  have hj : j ≠ "" := by simpa [PyVal.truthy] using hjt
  constructor
  · intro hp ht
    have ht' : ", ".intercalate (ps.map (fun p => p.1 ++ " " ++ p.2)) ≠ "" := by
      simpa [PyVal.truthy, renderSums, String.intercalate] using ht
    simp [aggregateFields, aggStep, flCtrl, dgetD, dget?, isStrEq, scanSumItems,
      hj, hp, ht', partsOfSums, partsOfSumList_encode, encodeSums, renderSums,
      PyVal.truthy]
  · intro hp
    simp [aggregateFields, aggStep, flCtrl, dgetD, dget?, isStrEq, scanSumItems,
      hj, hp, PyVal.truthy]

/-- The parse function of the C7 witness scenario. -/
def c7parse : String → Option PyVal :=
  fun s => if s = "50SEK10EUR" then some (encodeSums [("50", "SEK"), ("10", "EUR")]) else none

/-- C7, witness: Scenario 3 concretely — amount `"50 SEK, 10 EUR"`, a second
grouping control ignored, and the raw-value fallback on parse failure. -/
theorem c7_witness :
    aggregateFields c7parse [flCtrl "50SEK10EUR" (.vstr "77"), flCtrl "zz" .vnone]
        (.vstr "") (.vstr "") = .ok (.vstr "", .vstr "50 SEK, 10 EUR") ∧
    aggregateFields parseNone [flCtrl "oops" (.vstr "77")] (.vstr "") (.vstr "") =
      .ok (.vstr "", .vstr "77") := by
  constructor
  · have h := (c7_theorem c7parse "50SEK10EUR" "zz" (.vstr "77") .vnone
      [("50", "SEK"), ("10", "EUR")] (by decide)).1 (by rfl) (by decide)
    have hr : renderSums [("50", "SEK"), ("10", "EUR")] = "50 SEK, 10 EUR" := rfl
    rw [hr] at h
    exact h
  · exact (c7_theorem parseNone "oops" "x" (.vstr "77") .vnone [] (by decide)).2 rfl

/-- The isolated per-descriptor download outcome: `none` when the descriptor
has no usable URL or its download fails, else the descriptor with content. -/
def downloadOutcome (dl : PyVal → Option Content) (m : List (PyVal × PyVal))
    (a : AttachmentInfo) : Option AttachmentInfo :=
  match urlFor m a with
  | .error _ => none
  | .ok url =>
    if url.truthy = false then none
    else (dl url).map (fun c => { a with content := some c })

theorem downloadLoop_filterMap (dl : PyVal → Option Content) (m : List (PyVal × PyVal)) :
    ∀ atts : List AttachmentInfo,
      (∀ a ∈ atts, a.download_url.truthy = true ∨ pyHashable a.file_token = true) →
      downloadLoop dl m atts = .ok (atts.filterMap (downloadOutcome dl m)) := by
  intro atts
  induction atts with
  | nil => intro _; rfl
  | cons a rest ih =>
    intro hok
    have hrest := ih (fun b hb => hok b (List.mem_cons_of_mem a hb))
    have hurl : ∃ u, urlFor m a = .ok u := by
      rcases hok a (List.mem_cons_self a rest) with hu | hh
      · exact ⟨a.download_url, by simp [urlFor, hu]⟩
      · by_cases hu : a.download_url.truthy = true
        · exact ⟨a.download_url, by simp [urlFor, hu]⟩
        · exact ⟨lookupTok m a.file_token, by simp [urlFor, hu, hh]⟩
    obtain ⟨u, hu⟩ := hurl
    simp only [downloadLoop, List.filterMap_cons, downloadOutcome, hu]
    by_cases ht : u.truthy = false
    · simp [ht, hrest]
    · simp only [Bool.not_eq_false] at ht
      simp only [ht, Bool.true_eq_false, if_false]
      cases hdl : dl u with
      | some c => simp [hdl, hrest]
      | none => simp [hdl, hrest]

/-- C8: (1) the download step is per-descriptor isolated — its result is
exactly the order-preserving filterMap of the per-descriptor outcome, so one
failure only drops that descriptor; (2) the mail collaborator is reached only
with a non-empty downloaded batch (zero found or zero succeeded skip the
event before the send). -/
theorem c8_theorem :
    (∀ (getUrls : List PyVal → List (PyVal × PyVal)) (dl : PyVal → Option Content)
        (atts : List AttachmentInfo),
      (∀ a ∈ atts, a.download_url.truthy = true ∨ pyHashable a.file_token = true) →
      download_attachments getUrls dl atts =
        .ok (atts.filterMap (downloadOutcome dl (tokenMap getUrls atts)))) ∧
    (∀ (parse : String → Option PyVal) (getUrls : List PyVal → List (PyVal × PyVal))
        (dl : PyVal → Option Content) (settings : String → String)
        (code inst : PyVal) (toA subj : String) (as : List AttachmentInfo),
      process_approval parse getUrls dl settings code inst = .ok (.emailSent toA subj as) →
      as ≠ []) := by
  constructor
  · intro getUrls dl atts hok
    unfold download_attachments
    by_cases hnil : atts.isEmpty = true
    · have hn : atts = [] := by
        cases atts with
        | nil => rfl
        | cons a t => simp [List.isEmpty] at hnil
      subst hn
      simp
    · simp only [hnil, Bool.false_eq_true, if_false]
      exact downloadLoop_filterMap dl (tokenMap getUrls atts) atts hok
  · intro parse getUrls dl settings code inst toA subj as h
    unfold process_approval at h
    cases inst with
    | vnone => cases h
    | vbool b => cases h
    | vnum n => cases h
    | vstr s => cases h
    | vlist l => cases h
    | vdict ikvs =>
      cases hform : dgetD ikvs "form" (.vstr "[]") with
      | vstr fj =>
        simp only [hform] at h
        cases hparse : parse fj with
        | none => simp only [hparse] at h; cases h
        | some fd =>
          simp only [hparse] at h
          cases hge : get_target_email_py settings (dgetD ikvs "approval_name" (.vstr "")) with
          | error e => simp only [hge] at h; cases h
          | ok o =>
            cases o with
            | none => simp only [hge] at h; cases h
            | some target =>
              simp only [hge] at h
              cases hiter : pyIter fd with
              | error e => simp only [hiter] at h; cases h
              | ok fields =>
                simp only [hiter] at h
                cases hagg : aggregateFields parse fields (.vstr "") (.vstr "") with
                | error e => simp only [hagg] at h; cases h
                | ok pr =>
                  obtain ⟨t0, am⟩ := pr
                  simp only [hagg] at h
                  cases hext : extract_attachments_from_form parse fj with
                  | error e => simp only [hext] at h; cases h
                  | ok attachments =>
                    simp only [hext] at h
                    by_cases hA : attachments.isEmpty = true
                    · rw [if_pos hA] at h; cases h
                    · rw [if_neg hA] at h
                      cases hdl : download_attachments getUrls dl attachments with
                      | error e => simp only [hdl] at h; cases h
                      | ok downloaded =>
                        simp only [hdl] at h
                        by_cases hD : downloaded.isEmpty = true
                        · rw [if_pos hD] at h; cases h
                        · rw [if_neg hD] at h
                          cases h
                          intro hnil
                          subst hnil
                          simp at hD
      | vnone => simp only [hform] at h; cases h
      | vbool b => simp only [hform] at h; cases h
      | vnum n => simp only [hform] at h; cases h
      | vlist l => simp only [hform] at h; cases h
      | vdict kvs2 => simp only [hform] at h; cases h

/-- A descriptor with a direct good URL. -/
def c8att1 : AttachmentInfo :=
  { file_token := .vstr "", name := .vstr "g", mime_type := .vstr "",
    content := none, download_url := .vstr "http://g" }

/-- A descriptor with a direct URL whose download fails. -/
def c8att2 : AttachmentInfo :=
  { file_token := .vstr "", name := .vstr "b", mime_type := .vstr "",
    content := none, download_url := .vstr "http://b" }

/-- The download collaborator of the witness: fails exactly on `http://b`. -/
def c8dl : PyVal → Option Content :=
  fun u =>
    match u with
    | .vstr s => if s = "http://b" then none else some 7
    | _ => none

def c8getUrls : List PyVal → List (PyVal × PyVal) := fun _ => []

/-- The parsed form of the witness: one attachment control with one URL. -/
def c8form : PyVal :=
  .vlist [.vdict [("type", .vstr "attachmentV2"), ("value", .vlist [.vstr "http://g"])]]

def c8parse : String → Option PyVal := fun s => if s = "F" then some c8form else none

def c8inst : PyVal := .vdict [("approval_name", .vstr "付款test"), ("form", .vstr "F")]

def c8settings : String → String := fun attr => if attr = "email_付款test" then "a@b" else ""

/-- The one downloaded descriptor of the witness pipeline run. -/
def c8desc7 : AttachmentInfo :=
  { file_token := .vstr "", name := .vstr (fallbackName 0), mime_type := .vstr "",
    content := some 7, download_url := .vstr "http://g" }

/-- C8, witness: on a two-descriptor batch whose second download fails, the
batch equals the per-descriptor filterMap and keeps exactly the first
descriptor; and a full pipeline run that sends mail has a non-empty batch. -/
theorem c8_witness :
    download_attachments c8getUrls c8dl [c8att1, c8att2] =
      .ok ([c8att1, c8att2].filterMap (downloadOutcome c8dl (tokenMap c8getUrls [c8att1, c8att2]))) ∧
    [c8att1, c8att2].filterMap (downloadOutcome c8dl (tokenMap c8getUrls [c8att1, c8att2])) =
      [{ c8att1 with content := some 7 }] ∧
    ([c8desc7] : List AttachmentInfo) ≠ [] := by
  refine ⟨c8_theorem.1 c8getUrls c8dl [c8att1, c8att2] ?_, ?_, ?_⟩
  · intro a ha
    simp only [List.mem_cons, List.not_mem_nil, or_false] at ha
    rcases ha with rfl | rfl
    · exact Or.inl (by decide)
    · exact Or.inl (by decide)
  · simp [downloadOutcome, urlFor, tokenMap, tokensNeeding, lookupTok, c8att1, c8att2,
      c8dl, c8getUrls, PyVal.truthy, pyHashable]
  · apply c8_theorem.2 c8parse c8getUrls c8dl c8settings (.vstr "IC") c8inst "a@b"
      ("[" ++ pyStr (.vstr "付款test") ++ "]-" ++ pyStr (.vstr "IC"))
    simp [process_approval, get_target_email_py, get_target_email, slookup,
      APPROVAL_EMAIL_ATTRS, pyIter, aggregateFields, aggStep, dgetD, dget?, isStrEq,
      PyVal.truthy, extract_attachments_from_form, extractCtrls, extractCtrl,
      resolveAttachmentCtrl, resolveValue, resolveFiles, resolveFile, extFilenames,
      fallbackName, strStartsWith, listPrefix, download_attachments, downloadLoop,
      urlFor, tokenMap, tokensNeeding, lookupTok, pyHashable, c8parse, c8form, c8inst,
      c8settings, c8getUrls, c8dl, pyStr, c8desc7]

theorem attrs_ne_empty {name attr : String}
    (h : slookup APPROVAL_EMAIL_ATTRS name = some attr) : attr ≠ "" := by
  simp only [APPROVAL_EMAIL_ATTRS, slookup] at h
  repeat' split at h
  all_goals cases h
  all_goals decide

/-- C9: routing is a pure exact-string lookup; it returns absent exactly when
the name has no mapping or the mapped address is configured empty, and returns
an address exactly when the mapping exists and the configured address is
non-empty — the two absent cases are the same `none` value. -/
theorem c9_theorem (settings : String → String) (name : String) :
    (get_target_email settings name = none ↔
      (slookup APPROVAL_EMAIL_ATTRS name = none ∨
       ∃ attr, slookup APPROVAL_EMAIL_ATTRS name = some attr ∧ settings attr = "")) ∧
    (∀ e, get_target_email settings name = some e ↔
      ∃ attr, slookup APPROVAL_EMAIL_ATTRS name = some attr ∧
        settings attr = e ∧ e ≠ "") := by
  constructor
  · unfold get_target_email
    cases hlk : slookup APPROVAL_EMAIL_ATTRS name with
    | none => simp
    | some attr =>
      have hne := attrs_ne_empty hlk
      by_cases hs : settings attr = ""
      · simp [hne, hs]
      · simp [hne, hs]
  · intro e
    unfold get_target_email
    cases hlk : slookup APPROVAL_EMAIL_ATTRS name with
    | none => simp
    | some attr =>
      have hne := attrs_ne_empty hlk
      by_cases hs : settings attr = ""
      · simp [hne, hs]
        intro he
        exact he.symm
      · simp [hne, hs]
        intro h
        rw [← h]
        exact hs

theorem strStartsWith_enc (t : String) : strStartsWith ("ENC:" ++ t) "ENC:" = true := by
  rcases t with ⟨td⟩
  have hd : ("ENC:" ++ String.mk td).data = 'E' :: 'N' :: 'C' :: ':' :: td := by
    rw [String.data_append]
    rfl
  rw [strStartsWith, hd]
  rfl

theorem strDrop_enc (t : String) : strDrop ("ENC:" ++ t) 4 = t := by
  rcases t with ⟨td⟩
  have hd : ("ENC:" ++ String.mk td).data = 'E' :: 'N' :: 'C' :: ':' :: td := by
    rw [String.data_append]
    rfl
  rw [strDrop, hd]
  rfl

theorem xorBytes_cancel : ∀ (bs ks : List Nat), bs.length ≤ ks.length →
    xorBytes (xorBytes bs ks) ks = bs := by
  intro bs
  induction bs with
  | nil => intro ks _; rfl
  | cons b bt ih =>
    intro ks h
    cases ks with
    | nil => simp at h
    | cons k kt =>
      simp only [xorBytes, List.zipWith_cons_cons] at *
      rw [Nat.xor_cancel_right]
      rw [ih kt (by simpa using h)]

theorem keyStream_length (key : List Nat) (n : Nat) (hk : key ≠ []) :
    n < (keyStream key n).length := by
  have hpos : 0 < key.length := List.length_pos.mpr hk
  have hlen : ∀ m, ((List.replicate m key).flatten).length = m * key.length := by
    intro m
    induction m with
    | zero => simp
    | succ m ih =>
      simp only [List.replicate_succ, List.flatten_cons, List.length_append, ih,
        Nat.succ_mul]
      omega
  unfold keyStream
  rw [hlen, Nat.succ_mul]
  have h1 := Nat.div_add_mod n key.length
  rw [Nat.mul_comm] at h1
  have h2 := Nat.mod_lt n hpos
  omega

theorem flattenReplicateMono (l : List Nat) {m n : Nat} (h : m ≤ n) :
    (List.replicate m l).flatten <+: (List.replicate n l).flatten := by
  have hn : n = m + (n - m) := by omega
  rw [hn, List.replicate_add, List.flatten_append]
  exact List.prefix_append _ _

/-- Shorter keystreams are prefixes of longer ones (the key just repeats). -/
theorem keyStreamMono (key : List Nat) {a b : Nat} (h : a ≤ b) :
    keyStream key a <+: keyStream key b := by
  unfold keyStream
  exact flattenReplicateMono key
    (Nat.add_le_add_right (Nat.div_le_div_right h) 1)

theorem zipWithAgree (f : Nat → Nat → Nat) :
    ∀ (bs ks1 ks2 : List Nat), ks1 <+: ks2 → bs.length ≤ ks1.length →
      List.zipWith f bs ks1 = List.zipWith f bs ks2 := by
  intro bs
  induction bs with
  | nil => intro ks1 ks2 _ _; simp
  | cons b bt ih =>
    intro ks1 ks2 hp hl
    cases ks1 with
    | nil => simp at hl
    | cons k kt =>
      rcases hp with ⟨t, rfl⟩
      simp only [List.cons_append, List.zipWith_cons_cons]
      rw [ih kt (kt ++ t) ⟨t, rfl⟩ (by simpa using hl)]

/-- UTF-8 bytes of a string, as `str.encode()` produces them. -/
def utf8Enc : String → List Nat :=
  fun s => (String.toUTF8 s).data.toList.map (fun b => b.toNat)

/-- A byte decoder that agrees with `bytes.decode("utf-8")` on the two byte
strings reached in the counterexample scenario. -/
def utf8Dec : List Nat → Option String :=
  fun bs =>
    if bs = utf8Enc "中a" then some "中a"
    else if bs = utf8Enc "中ab" then some "中ab" else none

def c10encode : String → List Nat := fun t => t.data.map Char.toNat
def c10decode : List Nat → Option String := fun bs => some (String.mk (bs.map Char.ofNat))
def c10b64e : List Nat → String := fun bs => String.mk (bs.map Char.ofNat)
def c10b64d : String → Option (List Nat) := fun t => some (t.data.map Char.toNat)

/-- C10, counterexample: with the one-byte key `[7]`, the three-character
plaintext `"中ab"` encodes to five UTF-8 bytes, but the keystream is sized by
the CHARACTER count (`len(plaintext) = 3` giving four key bytes), so `zip`
truncates the ciphertext and decryption recovers only `"中a"` — the claimed
universal round-trip `decrypt (encrypt s) = s` fails on the program. -/
theorem c10_counterexample :
    decrypt c10b64d utf8Dec [7] (encrypt c10b64e utf8Enc [7] "中ab") = some "中a" ∧
    utf8Dec (utf8Enc "中ab") = some "中ab" ∧
    (some "中a" : Option String) ≠ some "中ab" ∧
    (utf8Enc "中ab").length = 5 ∧ ("中ab" : String).length = 3 ∧
    (keyStream [7] ("中ab" : String).length).length = 4 := by
  refine ⟨by decide, by decide, by decide, by decide, by decide, by decide⟩

/-- C10 (amended): `decrypt (encrypt s) = s` holds exactly as long as the
byte encoding of `s` is no longer than the keystream, which the source sizes
by the character count `len(plaintext)` — in particular for every plaintext
whose encoding is one byte per character; a longer multibyte encoding is
silently truncated by `zip` and does not round-trip.  Unconditionally,
`encrypt` prefixes its output with `"ENC:"` and `decrypt` is the identity on
any input that does not start with `"ENC:"`. -/
theorem c10_amended_theorem :
    (∀ (b64e : List Nat → String) (b64d : String → Option (List Nat))
        (encode : String → List Nat) (decode : List Nat → Option String)
        (key : List Nat) (s : String),
      key ≠ [] →
      (encode s).length ≤ (keyStream key s.length).length →
      b64d (b64e (xorBytes (encode s) (keyStream key s.length))) =
        some (xorBytes (encode s) (keyStream key s.length)) →
      decode (encode s) = some s →
      decrypt b64d decode key (encrypt b64e encode key s) = some s) ∧
    (∀ (b64e : List Nat → String) (encode : String → List Nat) (key : List Nat)
        (s : String), strStartsWith (encrypt b64e encode key s) "ENC:" = true) ∧
    (∀ (b64d : String → Option (List Nat)) (decode : List Nat → Option String)
        (key : List Nat) (c : String), strStartsWith c "ENC:" = false →
      decrypt b64d decode key c = some c) := by
  refine ⟨?_, ?_, ?_⟩
  · intro b64e b64d encode decode key s hk hle hb hd
    unfold decrypt encrypt
    rw [strStartsWith_enc, strDrop_enc, hb]
    simp only [Bool.true_eq_false, if_false]
    have hct_len : (xorBytes (encode s) (keyStream key s.length)).length =
        (encode s).length := by
      simp only [xorBytes, List.length_zipWith]
      exact Nat.min_eq_left hle
    rw [hct_len]
    have hlen2 := keyStream_length key (encode s).length hk
    have hswap :
        xorBytes (xorBytes (encode s) (keyStream key s.length))
            (keyStream key (encode s).length) =
          xorBytes (xorBytes (encode s) (keyStream key s.length))
            (keyStream key s.length) := by
      rcases Nat.le_total (encode s).length s.length with hcmp | hcmp
      · exact zipWithAgree _ _ _ _ (keyStreamMono key hcmp)
          (by rw [hct_len]; exact Nat.le_of_lt hlen2)
      · exact (zipWithAgree _ _ _ _ (keyStreamMono key hcmp)
          (by rw [hct_len]; exact hle)).symm
    rw [hswap, xorBytes_cancel _ _ hle, hd]
  · intro b64e encode key s
    unfold encrypt
    exact strStartsWith_enc _
  · intro b64d decode key c hc
    unfold decrypt
    rw [hc]
    simp

/-- C10, witness: the amended round trip at the key `[7]` and the one-byte-
per-character plaintext `"hi"`, plus the prefix and identity properties. -/
theorem c10_witness :
    decrypt c10b64d c10decode [7] (encrypt c10b64e c10encode [7] "hi") = some "hi" ∧
    strStartsWith (encrypt c10b64e c10encode [7] "hi") "ENC:" = true ∧
    decrypt c10b64d c10decode [7] "plain" = some "plain" :=
  ⟨c10_amended_theorem.1 c10b64e c10b64d c10encode c10decode [7] "hi" (by decide)
      (by decide) (by decide) (by decide),
   c10_amended_theorem.2.1 c10b64e c10encode [7] "hi",
   c10_amended_theorem.2.2 c10b64d c10decode [7] "plain" (by decide)⟩
